import Mathlib

/-!
# Verification of the weed-fs needle index and volume layout

A shallow embedding of the storage core of weed-fs:

* `go/storage/needle_map.go` — the persistent needle index: the append-only
  16-byte-record index log, its replay (`LoadNeedleMap` / `walkIndexFile`),
  the mutating operations `Put`, `Delete`, `NextFileKey`, and the cumulative
  counters (`mapMetric`).
* `src/topology/volume_layout.go` — the volume replication-placement layer:
  `RegisterVolume`, `SetVolumeAvailable`, `SetVolumeUnavailable`,
  `SetVolumeCapacityFull`, `PickForWrite`.

Machine integers are embedded as `Nat` with explicit reduction modulo
`2 ^ 64` where the Go code performs `uint64` (or 64-bit `int`) arithmetic
that can wrap.  Fallible operations return their error through an explicit
result component; I/O outcomes (short writes, write errors, truncate
errors) are passed in as parameters so that every code path of the source
is a total function of its inputs.

Components the excerpt uses but whose source is not part of it (the
`util` byte codec, the `CompactMap`, the `VolumeLocationList`, the
`ReplicationType` / `VolumeInfo` records) are modelled from the spec; each
such definition carries a doc comment starting with `Modelled from the
spec:`.
-/

/-- `2 ^ 64`, the modulus of Go's `uint64` (and the value range size of its
64-bit `int`). -/
def w64 : Nat := 2 ^ 64

/-- `2 ^ 32`, the modulus of Go's `uint32`. -/
def w32 : Nat := 2 ^ 32

/-- Modelled from the spec: `util.BytesToUint64` / `util.BytesToUint32`
(package `util` is not part of the excerpt).  The index-log integers are
"big-endian unsigned", so decoding folds the bytes most-significant first. -/
def bytesToUint (bs : List Nat) : Nat :=
  bs.foldl (fun a b => a * 256 + b) 0

/-- Modelled from the spec: `util.Uint64toBytes` / `util.Uint32toBytes`
(package `util` is not part of the excerpt): big-endian encoding of a value
into `w` bytes. -/
def uintToBytes : Nat → Nat → List Nat
  | 0, _ => []
  | w + 1, v => uintToBytes w (v / 256) ++ [v % 256]

/-- One decoded index-log record: `{key: uint64, offset: uint32, size: uint32}`
(`needle_map.go`, the three values handed to the `walkIndexFile` callback). -/
structure IdxRec where
  key : Nat
  offset : Nat
  size : Nat
deriving DecidableEq

/-- A record is representable in the Go types (`uint64`, `uint32`, `uint32`). -/
def WFRec (r : IdxRec) : Prop :=
  r.key < w64 ∧ r.offset < w32 ∧ r.size < w32

instance (r : IdxRec) : Decidable (WFRec r) := by
  unfold WFRec; infer_instance

/-- The 16-byte encoding written for one record:
`[key:8][offset:4][size:4]`, big-endian (`Put` lines 121–123, `Delete`
lines 142–144 of needle_map.go, via the `util` codec). -/
def encodeRecord (r : IdxRec) : List Nat :=
  uintToBytes 8 r.key ++ uintToBytes 4 r.offset ++ uintToBytes 4 r.size

/-- Decoding of one 16-byte slice `bytes[i:i+16]`, as done by the inner loop
of `walkIndexFile` (needle_map.go:96–99): key from bytes 0–8, offset from
8–12, size from 12–16. -/
def recOf (bs : List Nat) : IdxRec :=
  ⟨bytesToUint (bs.take 8), bytesToUint ((bs.drop 8).take 4),
    bytesToUint ((bs.drop 12).take 4)⟩

/-! ## The index-log scanner (`walkIndexFile`, needle_map.go:85–117)

The inner `for i = 0; i+16 <= count; i += 16` loop of `walkIndexFile`
decodes every complete 16-byte record of the valid prefix `bytes[0:count]`
of the read buffer and keeps the trailing `count % 16` bytes
(`bytes[i:count]`) for the next read to complete.  `parseAux acc bs` is
that scan: `acc` is the not-yet-complete record carried so far (< 16
bytes), `bs` the bytes still to scan; it returns the decoded records in
log order together with the final incomplete tail. -/

def parseAux : List Nat → List Nat → List IdxRec × List Nat
  | acc, [] => ([], acc)
  | acc, b :: rest =>
    if (acc ++ [b]).length = 16 then
      (recOf (acc ++ [b]) :: (parseAux [] rest).1, (parseAux [] rest).2)
    else parseAux (acc ++ [b]) rest

/-- Greedy 16-byte chunking of a whole byte stream: the decoded complete
records and the incomplete tail (the stream's length modulo 16 last
bytes). -/
def parseAll (bs : List Nat) : List IdxRec × List Nat := parseAux [] bs

/-- Concatenated 16-byte encodings of a record list (the byte content an
index log holds after those records were appended in order). -/
def encodeRecords : List IdxRec → List Nat
  | [] => []
  | r :: rs => encodeRecord r ++ encodeRecords rs

/-- The requested/served size of one `br.Read` call (needle_map.go:88, 107,
110).  The reader is modelled deterministically over the remaining byte
list; `sched` is an arbitrary oracle of OS read sizes, so short reads can
split the stream at any point (records crossing chunk boundaries).  A real
read into a non-empty buffer serves at least one byte; `cap` is the free
space of the 16*1024-byte buffer being read into. -/
def schedNext (cap : Nat) : List Nat → Nat × List Nat
  | [] => (cap, [])
  | n :: ns => (min (max n 1) cap, ns)

/-- The read/parse loop of `walkIndexFile` (needle_map.go:88–112).  One
iteration: read a chunk (at most the buffer space left after the carried
tail `buf`), scan `buf ++ chunk` for complete records, carry the new
incomplete tail.  When the reader hits end of stream the loop exits with
`e = io.EOF`, which line 113–114 turns into a `nil` error; an incomplete
trailing record is simply dropped.  `fuel` is a structural bound (any
value above the stream length is exact); the stream shrinks by at least
one byte per iteration. -/
def walkAux : Nat → List Nat → List Nat → List Nat → Except String (List IdxRec)
  | 0, _, _, _ => .ok []
  | fuel + 1, buf, s, sched =>
    match s with
    | [] => .ok []
    | b :: rest =>
      let cap := 16 * 1024 - buf.length
      let p := schedNext cap sched
      let m := min p.1 (b :: rest).length
      let parsed := parseAll (buf ++ (b :: rest).take m)
      match walkAux fuel parsed.2 ((b :: rest).drop m) p.2 with
      | .ok more => .ok (parsed.1 ++ more)
      | .error e => .error e

/-- `walkIndexFile` (needle_map.go:85–117) over the byte stream `s` with
OS read-size oracle `sched`: `.ok` of the records passed to the callback,
in order.  (`LoadNeedleMap`'s callback never returns an error and the
deterministic reader's only failure is end-of-stream, which the source
maps to success, so the `.error` branch of the loop is never taken.) -/
def walkIndexFile (s : List Nat) (sched : List Nat) : Except String (List IdxRec) :=
  walkAux (s.length + 1) [] s sched

/-! ## The needle index (`NeedleMap`, needle_map.go:25–183) -/

/-- Modelled from the spec: the in-memory Key-Value Compact Map
(`CompactMap`, whose source is not part of the excerpt).  The spec fixes
its contract: `Set(key, offset, size) -> previousSize`,
`Get(key) -> (value, found)`, `Delete(key) -> previousSize`, at most one
entry per key.  We realise it as an association list of
`(key, offset, size)` entries. -/
def CMap : Type := List (Nat × Nat × Nat)

instance : DecidableEq CMap := by
  unfold CMap; infer_instance

/-- Modelled from the spec: `CompactMap.Set` — upsert, returning the
previous size for the key (`0` if the key was absent). -/
def cmSet : CMap → Nat → Nat → Nat → Nat × CMap
  | [], key, offset, size => (0, [(key, offset, size)])
  | (k, o, s) :: rest, key, offset, size =>
    if k = key then (s, (key, offset, size) :: rest)
    else
      ((cmSet rest key offset size).1, (k, o, s) :: (cmSet rest key offset size).2)

/-- Modelled from the spec: `CompactMap.Delete` — remove the key's entry,
returning its size (`0` if the key was absent). -/
def cmDelete : CMap → Nat → Nat × CMap
  | [], _ => (0, [])
  | (k, o, s) :: rest, key =>
    if k = key then (s, rest)
    else ((cmDelete rest key).1, (k, o, s) :: (cmDelete rest key).2)

/-- Modelled from the spec: `CompactMap.Get` — the `(offset, size)` of the
key's entry, if present. -/
def cmGet : CMap → Nat → Option (Nat × Nat)
  | [], _ => none
  | (k, o, s) :: rest, key => if k = key then some (o, s) else cmGet rest key

/-- The `NeedleMap` value (needle_map.go:33–41) together with the content
of its index-log file.  The five metric fields are `mapMetric`
(needle_map.go:25–31); the two Go `int` counters and the three `uint64`
fields are all 64-bit, kept here as residues modulo `2 ^ 64`. -/
structure NeedleMap where
  indexFile : List Nat
  m : CMap
  DeletionCounter : Nat
  FileCounter : Nat
  DeletionByteCounter : Nat
  FileByteCounter : Nat
  MaximumFileKey : Nat
deriving DecidableEq

/-- `NewNeedleMap(file)` (needle_map.go:43–50): fresh map, zero metrics,
over the given index file content. -/
def NewNeedleMap (file : List Nat) : NeedleMap :=
  { indexFile := file
    m := []
    DeletionCounter := 0
    FileCounter := 0
    DeletionByteCounter := 0
    FileByteCounter := 0
    MaximumFileKey := 0 }

/-- Outcome of the single `indexFile.Write(nm.bytes)` call in `Put` /
`Delete`: either the full 16-byte buffer is written, or the write fails
with an OS error message after `n` bytes reached the file (a torn write;
`n` is clipped to 16). -/
inductive WriteOutcome where
  | ok
  | fail (n : Nat) (msg : String)
deriving DecidableEq

/-- Errors returned by `NeedleMap.Delete` (needle_map.go:136–154), kept
structured: the Go code formats them with `fmt.Errorf`.
`seekFailed e` is "cannot get position of indexfile: e";
`writeFailed e none` is "error writing to indexfile f: e";
`writeFailed e (some t)` additionally carries
"could not truncate index file: t" appended to the same message, so the
original write error is reported in both cases. -/
inductive IdxErr where
  | seekFailed (msg : String)
  | writeFailed (msg : String) (truncMsg : Option String)
deriving DecidableEq

/-- `NeedleMap.Put` (needle_map.go:119–131).  The map upsert, the
16-byte record encoding and the counter updates all happen before the
single `Write`; the call returns `Write`'s `(n, err)` pair.  `w` is the
outcome of that write. -/
def NeedleMap.Put (nm : NeedleMap) (key offset size : Nat) (w : WriteOutcome) :
    NeedleMap × Nat × Option String :=
  let bs := encodeRecord ⟨key, offset, size⟩
  let nm1 : NeedleMap :=
    { nm with
      m := (cmSet nm.m key offset size).2
      FileCounter := (nm.FileCounter + 1) % w64
      FileByteCounter := (nm.FileByteCounter + size) % w64 }
  let nm2 : NeedleMap :=
    if (cmSet nm.m key offset size).1 > 0 then
      { nm1 with
        DeletionCounter := (nm1.DeletionCounter + 1) % w64
        DeletionByteCounter :=
          (nm1.DeletionByteCounter + (cmSet nm.m key offset size).1) % w64 }
    else nm1
  match w with
  | .ok => ({ nm2 with indexFile := nm2.indexFile ++ bs }, 16, none)
  | .fail n msg => ({ nm2 with indexFile := nm2.indexFile ++ bs.take n }, min n 16, some msg)

/-- `NeedleMap.Get` (needle_map.go:132–135): pure in-memory lookup. -/
def NeedleMap.Get (nm : NeedleMap) (key : Nat) : Option (Nat × Nat) :=
  cmGet nm.m key

/-- `NeedleMap.Delete` (needle_map.go:136–154).  The map removal and the
deletion-byte accounting happen first; then the current file position is
captured (`Seek(0, 1)` — the file is written sequentially, so the position
is its length); then the tombstone `{key, 0, 0}` is written.  On write
failure the file is truncated back to the captured position, and the
truncation's own outcome (`truncRes`) is folded into the returned error;
`DeletionCounter` is only incremented after a successful write.
`seekRes` / `truncRes` inject the outcomes of `Seek` / `Truncate`. -/
def NeedleMap.Delete (nm : NeedleMap) (key : Nat) (seekRes : Option String)
    (w : WriteOutcome) (truncRes : Option String) : NeedleMap × Option IdxErr :=
  let nm1 : NeedleMap :=
    { nm with
      m := (cmDelete nm.m key).2
      DeletionByteCounter := (nm.DeletionByteCounter + (cmDelete nm.m key).1) % w64 }
  match seekRes with
  | some msg => (nm1, some (.seekFailed msg))
  | none =>
    let offset := nm1.indexFile.length
    let bs := encodeRecord ⟨key, 0, 0⟩
    match w with
    | .ok =>
      ({ nm1 with
          indexFile := nm1.indexFile ++ bs
          DeletionCounter := (nm1.DeletionCounter + 1) % w64 }, none)
    | .fail n msg =>
      match truncRes with
      | none =>
        ({ nm1 with indexFile := (nm1.indexFile ++ bs.take n).take offset },
          some (.writeFailed msg none))
      | some tmsg =>
        ({ nm1 with indexFile := nm1.indexFile ++ bs.take n },
          some (.writeFailed msg (some tmsg)))

/-- `NeedleMap.ContentSize` (needle_map.go:158–160). -/
def NeedleMap.ContentSize (nm : NeedleMap) : Nat := nm.FileByteCounter

/-- `NeedleMap.DeletedSize` (needle_map.go:161–163). -/
def NeedleMap.DeletedSize (nm : NeedleMap) : Nat := nm.DeletionByteCounter

/-- `NeedleMap.FileCount` (needle_map.go:164–166). -/
def NeedleMap.FileCount (nm : NeedleMap) : Nat := nm.FileCounter

/-- `NeedleMap.DeletedCount` (needle_map.go:167–169). -/
def NeedleMap.DeletedCount (nm : NeedleMap) : Nat := nm.DeletionCounter

/-- `NeedleMap.MaxFileKey` (needle_map.go:173–175). -/
def NeedleMap.MaxFileKey (nm : NeedleMap) : Nat := nm.MaximumFileKey

/-- `NeedleMap.NextFileKey` (needle_map.go:176–183).  The Go method takes
its receiver **by value**: `func (nm NeedleMap) NextFileKey(count int)
(ret uint64)`.  Its `nm.MaximumFileKey += uint64(count)` therefore updates
a copy of the struct that is discarded when the method returns, so the
caller-visible `NeedleMap` is unchanged by the call.  The embedding
returns the Go return value together with the caller's state after the
call. -/
def NeedleMap.NextFileKey (nm : NeedleMap) (count : Int) : Nat × NeedleMap :=
  if count ≤ 0 then (0, nm)
  else (nm.MaximumFileKey, nm)

/-- The body of the callback `LoadNeedleMap` hands to `walkIndexFile`
(needle_map.go:58–78), applied to one decoded record: track the maximum
key, count every record in the file counters, upsert on `offset > 0`
(folding a displaced previous size into the deletion counters), remove on
`offset == 0` (always counting the tombstone as a deletion). -/
def loadStep (nm : NeedleMap) (r : IdxRec) : NeedleMap :=
  let nm0 : NeedleMap :=
    if r.key > nm.MaximumFileKey then { nm with MaximumFileKey := r.key } else nm
  let nm1 : NeedleMap :=
    { nm0 with
      FileCounter := (nm0.FileCounter + 1) % w64
      FileByteCounter := (nm0.FileByteCounter + r.size) % w64 }
  if r.offset > 0 then
    if (cmSet nm1.m r.key r.offset r.size).1 > 0 then
      { nm1 with
        m := (cmSet nm1.m r.key r.offset r.size).2
        DeletionCounter := (nm1.DeletionCounter + 1) % w64
        DeletionByteCounter :=
          (nm1.DeletionByteCounter + (cmSet nm1.m r.key r.offset r.size).1) % w64 }
    else { nm1 with m := (cmSet nm1.m r.key r.offset r.size).2 }
  else
    { nm1 with
      m := (cmDelete nm1.m r.key).2
      DeletionCounter := (nm1.DeletionCounter + 1) % w64
      DeletionByteCounter := (nm1.DeletionByteCounter + (cmDelete nm1.m r.key).1) % w64 }

/-- `LoadNeedleMap(file)` (needle_map.go:56–81): a fresh `NeedleMap` over
the file, populated by walking the index log and applying the callback to
each record in order (the callback never returns an error, so the walk's
error can only be a reader error, which the deterministic list reader
never produces).  `sched` is the OS read-size oracle of the walk. -/
def LoadNeedleMap (file : List Nat) (sched : List Nat) : NeedleMap × Option String :=
  match walkIndexFile file sched with
  | .ok rs => (rs.foldl loadStep (NewNeedleMap file), none)
  | .error e => (NewNeedleMap file, some e)

/-! ## Sequences of live index operations -/

/-- One live mutation of a needle index: `Put(key, offset, size)` or
`Delete(key)`. -/
inductive Op where
  | put (key offset size : Nat)
  | del (key : Nat)
deriving DecidableEq

/-- The 16-byte record the operation appends to the index log (`Put`
writes its arguments, `Delete` writes the tombstone `{key, 0, 0}`). -/
def recordOf : Op → IdxRec
  | .put k o s => ⟨k, o, s⟩
  | .del k => ⟨k, 0, 0⟩

/-- The state transition of one operation when its log append succeeds. -/
def applyOp (nm : NeedleMap) : Op → NeedleMap
  | .put k o s => (nm.Put k o s .ok).1
  | .del k => (nm.Delete k none .ok none).1

def runOpsFrom (nm : NeedleMap) (ops : List Op) : NeedleMap := ops.foldl applyOp nm

/-- The index reached from a fresh, empty needle index by a sequence of
(successful) operations. -/
def runOps (ops : List Op) : NeedleMap := runOpsFrom (NewNeedleMap []) ops

/-- `Put` operations whose offset is positive (an offset of `0` would make
the written record a tombstone). -/
def putPositive : Op → Bool
  | .put _ o _ => decide (0 < o)
  | .del _ => true

/-- Number of `Delete` operations in a sequence. -/
def numDels : List Op → Nat
  | [] => 0
  | .put _ _ _ :: ops => numDels ops
  | .del _ :: ops => numDels ops + 1

/-- Running maximum of the keys written by a sequence of operations. -/
def maxKeyFrom (a : Nat) : List Op → Nat
  | [] => a
  | op :: ops => maxKeyFrom (max a (recordOf op).key) ops

/-! ## The volume layout (`VolumeLayout`, volume_layout.go) -/

/-- Modelled from the spec: the current data format version
(`storage.CurrentVersion`, not part of the excerpt); only equality against
it matters to the layout. -/
def CurrentVersion : Nat := 2

/-- Modelled from the spec: a replication class
(`storage.ReplicationType`, not part of the excerpt) — "a named policy
specifying how many node copies ('copy count') a volume must have".  Only
its `GetCopyCount()` is consumed by the layout, so the class is carried as
that count. -/
structure ReplicationType where
  copyCount : Nat
deriving DecidableEq

/-- `ReplicationType.GetCopyCount()` — the required number of replicas. -/
def ReplicationType.GetCopyCount (t : ReplicationType) : Nat := t.copyCount

/-- Modelled from the spec: `storage.VolumeInfo` (not part of the
excerpt), the reporting node's view of one volume, with the fields the
layout reads: `Id`, `Size`, `RepType`, `Version`, `ReadOnly`.  Data nodes
are carried by identity only (`*DataNode` pointers compared for
membership), embedded as `Nat` identifiers. -/
structure VolumeInfo where
  Id : Nat
  Size : Nat
  RepType : ReplicationType
  Version : Nat
  ReadOnly : Bool
deriving DecidableEq

/-- Lookup in the `vid2location` Go map (association list model). -/
def alookup : List (Nat × List Nat) → Nat → Option (List Nat)
  | [], _ => none
  | (k, v) :: rest, key => if k = key then some v else alookup rest key

/-- Write-back into the `vid2location` Go map: replace the key's entry or
append a fresh one. -/
def aset : List (Nat × List Nat) → Nat → List Nat → List (Nat × List Nat)
  | [], key, v => [(key, v)]
  | (k, w) :: rest, key, v =>
    if k = key then (key, v) :: rest else (k, w) :: aset rest key v

/-- Modelled from the spec: `VolumeLocationList.Add` (not part of the
excerpt) — idempotent membership add on an ordered, deduplicated node
list; returns whether a change occurred. -/
def locAdd (l : List Nat) (dn : Nat) : Bool × List Nat :=
  if dn ∈ l then (false, l) else (true, l ++ [dn])

/-- Modelled from the spec: `VolumeLocationList.Remove` (not part of the
excerpt) — idempotent membership removal; returns whether a change
occurred. -/
def locRemove (l : List Nat) (dn : Nat) : Bool × List Nat :=
  if dn ∈ l then (true, l.erase dn) else (false, l)

/-- `VolumeLayout` (volume_layout.go:10–16): replication class, the
volume-id → location-list map, and the materialized list of currently
writable volume ids. -/
structure VolumeLayout where
  repType : ReplicationType
  vid2location : List (Nat × List Nat)
  writables : List Nat
  pulse : Int
  volumeSizeLimit : Nat
deriving DecidableEq

/-- `NewVolumeLayout` (volume_layout.go:18–26). -/
def NewVolumeLayout (repType : ReplicationType) (volumeSizeLimit : Nat) (pulse : Int) :
    VolumeLayout :=
  { repType := repType
    vid2location := []
    writables := []
    pulse := pulse
    volumeSizeLimit := volumeSizeLimit }

/-- `VolumeLayout.isWritable` (volume_layout.go:41–45):
`size < volumeSizeLimit && version == CurrentVersion && !readOnly`. -/
def VolumeLayout.isWritable (vl : VolumeLayout) (v : VolumeInfo) : Bool :=
  decide (v.Size < vl.volumeSizeLimit) && decide (v.Version = CurrentVersion) && !v.ReadOnly

/-- `VolumeLayout.RegisterVolume` (volume_layout.go:28–39).  Creates the
location list on first sight of the volume id, `Add`s the node, and — only
when the `Add` really changed the list **and** the list length now equals
the reported volume's `RepType.GetCopyCount()` **and** the volume passes
`isWritable` — appends the id to `writables` (with no duplicate check). -/
def VolumeLayout.RegisterVolume (vl : VolumeLayout) (v : VolumeInfo) (dn : Nat) :
    VolumeLayout :=
  let m0 := match alookup vl.vid2location v.Id with
            | none => aset vl.vid2location v.Id []
            | some _ => vl.vid2location
  let l := (alookup m0 v.Id).getD []
  let vl1 : VolumeLayout := { vl with vid2location := aset m0 v.Id (locAdd l dn).2 }
  if (locAdd l dn).1 then
    if (locAdd l dn).2.length = v.RepType.GetCopyCount then
      if vl1.isWritable v then { vl1 with writables := vl1.writables ++ [v.Id] }
      else vl1
    else vl1
  else vl1

/-- `VolumeLayout.Lookup` (volume_layout.go:47–52). -/
def VolumeLayout.Lookup (vl : VolumeLayout) (vid : Nat) : Option (List Nat) :=
  alookup vl.vid2location vid

/-- The two failure modes of `PickForWrite` (volume_layout.go:58, 65):
the expected exhaustion error ("No more writable volumes!") and the
defensive inconsistency error ("Strangely vid ... is on no machine!"). -/
inductive PickErr where
  | noWritable
  | inconsistent (vid : Nat)
deriving DecidableEq

/-- `VolumeLayout.PickForWrite` (volume_layout.go:54–66).  `r` stands for
the value of `rand.Intn(len_writers)`, i.e. the uniformly random index is
`r % len_writers` for an arbitrary `r`. -/
def VolumeLayout.PickForWrite (vl : VolumeLayout) (count : Int) (r : Nat) :
    Except PickErr (Nat × Int × List Nat) :=
  if vl.writables.length ≤ 0 then .error .noWritable
  else
    match alookup vl.vid2location (vl.writables.getD (r % vl.writables.length) 0) with
    | some locationList =>
      .ok (vl.writables.getD (r % vl.writables.length) 0, count, locationList)
    | none => .error (.inconsistent (vl.writables.getD (r % vl.writables.length) 0))

/-- `VolumeLayout.GetActiveVolumeCount` (volume_layout.go:68–70). -/
def VolumeLayout.GetActiveVolumeCount (vl : VolumeLayout) : Nat := vl.writables.length

/-- `VolumeLayout.removeFromWritable` (volume_layout.go:72–81): drop the
first occurrence of the id, reporting whether one was found. -/
def VolumeLayout.removeFromWritable (vl : VolumeLayout) (vid : Nat) : VolumeLayout × Bool :=
  if vid ∈ vl.writables then ({ vl with writables := vl.writables.erase vid }, true)
  else (vl, false)

/-- `VolumeLayout.setVolumeWritable` (volume_layout.go:82–91): append the
id unless already present, reporting whether it was appended. -/
def VolumeLayout.setVolumeWritable (vl : VolumeLayout) (vid : Nat) : VolumeLayout × Bool :=
  if vid ∈ vl.writables then (vl, false)
  else ({ vl with writables := vl.writables ++ [vid] }, true)

/-- `VolumeLayout.SetVolumeUnavailable` (volume_layout.go:93–101).
`Remove`s the node; if that changed the list and the remaining length is
below the layout's required copy count, the id is dropped from
`writables`.  The Go code dereferences `vl.vid2location[vid]` without a
presence check and would panic on an unregistered id; the `none` branch
here is that (never legitimately reached) case, kept as a no-op and ruled
out by the trace validity predicate in the theorems. -/
def VolumeLayout.SetVolumeUnavailable (vl : VolumeLayout) (dn : Nat) (vid : Nat) :
    VolumeLayout × Bool :=
  match alookup vl.vid2location vid with
  | none => (vl, false)
  | some l =>
    let vl1 : VolumeLayout := { vl with vid2location := aset vl.vid2location vid (locRemove l dn).2 }
    if (locRemove l dn).1 then
      if (locRemove l dn).2.length < vl.repType.GetCopyCount then
        vl1.removeFromWritable vid
      else (vl1, false)
    else (vl1, false)

/-- `VolumeLayout.SetVolumeAvailable` (volume_layout.go:102–109).  `Add`s
the node; if that changed the list and the length now meets or exceeds the
layout's required copy count, the id is (idempotently) appended to
`writables` — note: with **no** `isWritable` check.  As with
`SetVolumeUnavailable`, the Go code would panic on an unregistered id. -/
def VolumeLayout.SetVolumeAvailable (vl : VolumeLayout) (dn : Nat) (vid : Nat) :
    VolumeLayout × Bool :=
  match alookup vl.vid2location vid with
  | none => (vl, false)
  | some l =>
    let vl1 : VolumeLayout := { vl with vid2location := aset vl.vid2location vid (locAdd l dn).2 }
    if (locAdd l dn).1 then
      if vl.repType.GetCopyCount ≤ (locAdd l dn).2.length then
        vl1.setVolumeWritable vid
      else (vl1, false)
    else (vl1, false)

/-- `VolumeLayout.SetVolumeCapacityFull` (volume_layout.go:111–113). -/
def VolumeLayout.SetVolumeCapacityFull (vl : VolumeLayout) (vid : Nat) :
    VolumeLayout × Bool :=
  vl.removeFromWritable vid

/-- One layout mutation, for reachability statements. -/
inductive LOp where
  | reg (v : VolumeInfo) (dn : Nat)
  | avail (dn : Nat) (vid : Nat)
  | unavail (dn : Nat) (vid : Nat)
  | capFull (vid : Nat)
deriving DecidableEq

/-- The state transition of one layout mutation. -/
def lstep (vl : VolumeLayout) : LOp → VolumeLayout
  | .reg v dn => vl.RegisterVolume v dn
  | .avail dn vid => (vl.SetVolumeAvailable dn vid).1
  | .unavail dn vid => (vl.SetVolumeUnavailable dn vid).1
  | .capFull vid => (vl.SetVolumeCapacityFull vid).1

def runLayout (vl : VolumeLayout) (ops : List LOp) : VolumeLayout := ops.foldl lstep vl

/-- An operation the Go code executes without a nil-pointer panic:
`SetVolumeAvailable` / `SetVolumeUnavailable` require the volume id to be
registered. -/
def lopOK (vl : VolumeLayout) : LOp → Bool
  | .reg _ _ => true
  | .avail _ vid => (alookup vl.vid2location vid).isSome
  | .unavail _ vid => (alookup vl.vid2location vid).isSome
  | .capFull _ => true

/-- A panic-free trace from the given state. -/
def traceOK : VolumeLayout → List LOp → Bool
  | _, [] => true
  | vl, op :: ops => lopOK vl op && traceOK (lstep vl op) ops

/-- Every `RegisterVolume` in the trace reports a volume of the layout's
own replication class (a layout is the per-class registry, so reported
infos carry its class). -/
def regsMatch (t : ReplicationType) : List LOp → Bool
  | [] => true
  | .reg v _ :: ops => decide (v.RepType.GetCopyCount = t.GetCopyCount) && regsMatch t ops
  | _ :: ops => regsMatch t ops

/-- The state invariant the writable set actually maintains: no duplicate
ids, and every writable id is registered with at least the layout class's
required replica count. -/
def layoutInv (vl : VolumeLayout) : Prop :=
  vl.writables.Nodup ∧
  ∀ vid ∈ vl.writables,
    alookup vl.vid2location vid ≠ none ∧
    vl.repType.GetCopyCount ≤ ((alookup vl.vid2location vid).getD []).length

/-- An index whose in-memory map holds a record of size 0 for key 1. -/
def nmSizeZero : NeedleMap :=
  { indexFile := []
    m := [(1, 5, 0)]
    DeletionCounter := 0
    FileCounter := 0
    DeletionByteCounter := 0
    FileByteCounter := 0
    MaximumFileKey := 0 }

/-- A volume of copy count 1, below the size limit, current version,
writable. -/
def vGood : VolumeInfo := ⟨1, 0, ⟨1⟩, CurrentVersion, false⟩

/-- A volume whose reported size equals the size limit, so it fails the
writability predicate. -/
def vFull : VolumeInfo := ⟨1, 100, ⟨1⟩, CurrentVersion, false⟩

/-- A volume of copy count 1, below the size limit, current version. -/
def vOne : VolumeInfo := ⟨1, 0, ⟨1⟩, CurrentVersion, false⟩

/-- A layout with writable volume 5 located on node 1. -/
def vlPick : VolumeLayout :=
  { repType := ⟨1⟩
    vid2location := [(5, [1])]
    writables := [5]
    pulse := 0
    volumeSizeLimit := 100 }

/-! ## Theorems -/

theorem uintToBytes_length : ∀ w v, (uintToBytes w v).length = w := by
  intro w
  induction w with
  | zero => intro v; rfl
  | succ w ih => intro v; simp [uintToBytes, ih]

theorem bytesToUint_append (xs ys : List Nat) :
    bytesToUint (xs ++ ys) = ys.foldl (fun a b => a * 256 + b) (bytesToUint xs) := by
  simp [bytesToUint, List.foldl_append]

theorem mod_mul_base (v p : Nat) (hp : 0 < p) :
    v % (p * 256) = (v / 256 % p) * 256 + v % 256 := by
  have h1 : v = 256 * (v / 256) + v % 256 := (Nat.div_add_mod v 256).symm
  have h2 : v / 256 = p * (v / 256 / p) + v / 256 % p := (Nat.div_add_mod (v / 256) p).symm
  have hlt : (v / 256 % p) * 256 + v % 256 < p * 256 := by
    have ha : v / 256 % p < p := Nat.mod_lt _ hp
    have hb : v % 256 < 256 := Nat.mod_lt _ (by omega)
    calc (v / 256 % p) * 256 + v % 256 < (v / 256 % p) * 256 + 256 := by omega
      _ = (v / 256 % p + 1) * 256 := by ring
      _ ≤ p * 256 := Nat.mul_le_mul_right _ (by omega)
  calc v % (p * 256)
      = (256 * (p * (v / 256 / p) + v / 256 % p) + v % 256) % (p * 256) := by
        rw [← h2, ← h1]
    _ = ((v / 256 % p) * 256 + v % 256 + (v / 256 / p) * (p * 256)) % (p * 256) := by
        ring_nf
    _ = ((v / 256 % p) * 256 + v % 256) % (p * 256) := by
        rw [Nat.add_mul_mod_self_right]
    _ = (v / 256 % p) * 256 + v % 256 := Nat.mod_eq_of_lt hlt

theorem bytesToUint_uintToBytes : ∀ w v, bytesToUint (uintToBytes w v) = v % 256 ^ w := by
  intro w
  induction w with
  | zero => intro v; simp [uintToBytes, bytesToUint, Nat.mod_one]
  | succ w ih =>
    intro v
    rw [uintToBytes, bytesToUint_append, List.foldl_cons, List.foldl_nil, ih,
      pow_succ, mod_mul_base _ _ (Nat.pos_pow_of_pos w (by omega))]

theorem encodeRecord_length (r : IdxRec) : (encodeRecord r).length = 16 := by
  simp [encodeRecord, uintToBytes_length]

theorem recOf_encodeRecord (r : IdxRec) (h : WFRec r) : recOf (encodeRecord r) = r := by
  obtain ⟨hk, ho, hs⟩ := h
  have l8 : (uintToBytes 8 r.key).length = 8 := uintToBytes_length 8 r.key
  have l4o : (uintToBytes 4 r.offset).length = 4 := uintToBytes_length 4 r.offset
  have l4s : (uintToBytes 4 r.size).length = 4 := uintToBytes_length 4 r.size
  have htake8 : (encodeRecord r).take 8 = uintToBytes 8 r.key := by
    rw [encodeRecord, List.append_assoc, List.take_left' l8]
  have hdrop8 : (encodeRecord r).drop 8 = uintToBytes 4 r.offset ++ uintToBytes 4 r.size := by
    rw [encodeRecord, List.append_assoc, List.drop_left' l8]
  have hdrop12 : (encodeRecord r).drop 12 = uintToBytes 4 r.size := by
    have h12 : (uintToBytes 8 r.key ++ uintToBytes 4 r.offset).length = 12 := by
      simp [l8, l4o]
    rw [encodeRecord, List.drop_left' h12]
  have hko : r.key % 256 ^ 8 = r.key := by
    apply Nat.mod_eq_of_lt
    calc r.key < w64 := hk
      _ ≤ 256 ^ 8 := by norm_num [w64]
  have hoo : r.offset % 256 ^ 4 = r.offset := by
    apply Nat.mod_eq_of_lt
    calc r.offset < w32 := ho
      _ ≤ 256 ^ 4 := by norm_num [w32]
  have hso : r.size % 256 ^ 4 = r.size := by
    apply Nat.mod_eq_of_lt
    calc r.size < w32 := hs
      _ ≤ 256 ^ 4 := by norm_num [w32]
  rw [recOf, htake8, hdrop8, hdrop12]
  rw [List.take_left' l4o]
  rw [show (uintToBytes 4 r.size).take 4 = uintToBytes 4 r.size from
    List.take_of_length_le (by omega)]
  rw [bytesToUint_uintToBytes, bytesToUint_uintToBytes, bytesToUint_uintToBytes,
    hko, hoo, hso]

theorem parseAux_append : ∀ (xs : List Nat) (acc ys : List Nat),
    parseAux acc (xs ++ ys) =
      ((parseAux acc xs).1 ++ (parseAux (parseAux acc xs).2 ys).1,
        (parseAux (parseAux acc xs).2 ys).2) := by
  intro xs
  induction xs with
  | nil => intro acc ys; simp [parseAux]
  | cons b xs ih =>
    intro acc ys
    by_cases h : (acc ++ [b]).length = 16
    · simp only [List.cons_append, parseAux, h, if_true, List.append_eq, ih []]
    · simp only [List.cons_append, parseAux, h, if_false, List.append_eq, ih (acc ++ [b])]

theorem parseAux_short : ∀ (bs acc : List Nat), acc.length + bs.length < 16 →
    parseAux acc bs = ([], acc ++ bs) := by
  intro bs
  induction bs with
  | nil => intro acc _; simp [parseAux]
  | cons b rest ih =>
    intro acc h
    have hlen : (acc ++ [b]).length ≠ 16 := by
      simp only [List.length_append, List.length_cons, List.length_nil]
      simp only [List.length_cons] at h
      omega
    rw [parseAux, if_neg hlen, ih (acc ++ [b]) (by simp at h ⊢; omega)]
    simp

theorem parseAux_full : ∀ (bs acc : List Nat), (acc ++ bs).length = 16 → bs ≠ [] →
    parseAux acc bs = ([recOf (acc ++ bs)], []) := by
  intro bs
  induction bs with
  | nil => intro acc _ hne; exact absurd rfl hne
  | cons b rest ih =>
    intro acc h _
    cases rest with
    | nil =>
      have h16 : (acc ++ [b]).length = 16 := h
      rw [parseAux, if_pos h16]
      simp [parseAux]
    | cons c rest' =>
      have hne : (acc ++ [b]).length ≠ 16 := by
        simp only [List.length_append, List.length_cons, List.length_nil] at h ⊢
        omega
      rw [parseAux, if_neg hne, ih (acc ++ [b]) (by simpa using h) (by simp)]
      simp

theorem parseAux_snd_lt : ∀ (bs acc : List Nat), acc.length < 16 →
    (parseAux acc bs).2.length < 16 := by
  intro bs
  induction bs with
  | nil => intro acc h; simpa [parseAux] using h
  | cons b rest ih =>
    intro acc h
    by_cases h16 : (acc ++ [b]).length = 16
    · rw [parseAux, if_pos h16]
      exact ih [] (by simp)
    · rw [parseAux, if_neg h16]
      apply ih
      simp only [List.length_append, List.length_cons, List.length_nil] at h16 ⊢
      omega

theorem parseAux_len : ∀ (bs acc : List Nat),
    16 * (parseAux acc bs).1.length + (parseAux acc bs).2.length
      = acc.length + bs.length := by
  intro bs
  induction bs with
  | nil => intro acc; simp [parseAux]
  | cons b rest ih =>
    intro acc
    by_cases h16 : (acc ++ [b]).length = 16
    · rw [parseAux, if_pos h16]
      have := ih []
      simp only [List.length_nil, List.length_cons, List.length_append,
        List.length_cons, List.length_nil] at *
      omega
    · rw [parseAux, if_neg h16]
      have := ih (acc ++ [b])
      simp only [List.length_append, List.length_cons, List.length_nil] at *
      omega

/-- Scanning with a carried tail `acc` is the same as scanning `acc ++ ys`
from scratch (the stitch `copy(bytes[:count-i], bytes[i:count])` at
needle_map.go:105 followed by reading into `bytes[i:]`). -/
theorem parseAux_acc (acc ys : List Nat) (h : acc.length < 16) :
    parseAux acc ys = parseAll (acc ++ ys) := by
  rw [parseAll, parseAux_append acc [] ys,
    parseAux_short acc [] (by simpa using h)]
  simp

theorem parseAll_encodeRecords : ∀ (rs : List IdxRec),
    (∀ r ∈ rs, WFRec r) → parseAll (encodeRecords rs) = (rs, []) := by
  intro rs
  induction rs with
  | nil => intro _; rfl
  | cons r rs ih =>
    intro hwf
    have hr : WFRec r := hwf r (by simp)
    have hsingle : parseAux [] (encodeRecord r) = ([recOf (encodeRecord r)], []) := by
      apply parseAux_full (encodeRecord r) []
      · simpa using encodeRecord_length r
      · intro hnil
        have := encodeRecord_length r
        rw [hnil] at this
        simp at this
    rw [encodeRecords, parseAll, parseAux_append (encodeRecord r) [] (encodeRecords rs),
      hsingle]
    have htail := ih (fun x hx => hwf x (by simp [hx]))
    rw [parseAll] at htail
    rw [htail, recOf_encodeRecord r hr]
    simp

theorem schedNext_pos (cap : Nat) (sched : List Nat) (h : 0 < cap) :
    0 < (schedNext cap sched).1 := by
  cases sched with
  | nil => exact h
  | cons n ns =>
    simp only [schedNext]
    omega

/-- Records found scanning `xs`, then continuing on `xs`'s incomplete tail
followed by `ys`, are exactly the records of the whole stream `xs ++ ys`. -/
theorem parseAux_glue (xs ys : List Nat) :
    (parseAll xs).1 ++ (parseAux (parseAll xs).2 ys).1 = (parseAll (xs ++ ys)).1 := by
  rw [parseAll, parseAll, parseAux_append xs [] ys]

theorem walkAux_eq : ∀ (fuel : Nat) (buf s sched : List Nat),
    buf.length < 16 → s.length < fuel →
    walkAux fuel buf s sched = .ok (parseAll (buf ++ s)).1 := by
  intro fuel
  induction fuel with
  | zero => intro buf s sched _ hs; omega
  | succ fuel ih =>
    intro buf s sched hb hs
    match s with
    | [] =>
      rw [walkAux]
      rw [show parseAll (buf ++ []) = ([], buf) from by
        rw [List.append_nil, parseAll]
        exact parseAux_short buf [] (by simpa using hb)]
    | b :: rest =>
      rw [walkAux]
      have hcap : 0 < 16 * 1024 - buf.length := by omega
      have hm : 0 < min (schedNext (16 * 1024 - buf.length) sched).1 (b :: rest).length := by
        have := schedNext_pos (16 * 1024 - buf.length) sched hcap
        simp only [List.length_cons]
        omega
      have hlt : ((b :: rest).drop
          (min (schedNext (16 * 1024 - buf.length) sched).1 (b :: rest).length)).length < fuel := by
        simp only [List.length_drop, List.length_cons] at *
        omega
      have hbuf' : (parseAll (buf ++ (b :: rest).take
          (min (schedNext (16 * 1024 - buf.length) sched).1 (b :: rest).length))).2.length < 16 :=
        parseAux_snd_lt _ [] (by simp)
      rw [ih _ _ _ hbuf' hlt]
      dsimp only
      rw [← parseAux_acc _ _ hbuf']
      rw [parseAux_glue, List.append_assoc, List.take_append_drop]

theorem walkIndexFile_eq (s sched : List Nat) :
    walkIndexFile s sched = .ok (parseAll s).1 := by
  rw [walkIndexFile, walkAux_eq (s.length + 1) [] s sched (by simp) (by omega)]
  simp

theorem cmGet_cmSet (m : CMap) (key offset size : Nat) :
    cmGet (cmSet m key offset size).2 key = some (offset, size) := by
  induction m with
  | nil => simp [cmSet, cmGet]
  | cons e rest ih =>
    obtain ⟨k, o, s⟩ := e
    by_cases h : k = key
    · simp [cmSet, cmGet, h]
    · simp [cmSet, cmGet, h, ih]

theorem LoadNeedleMap_eq (file sched : List Nat) :
    LoadNeedleMap file sched = ((parseAll file).1.foldl loadStep (NewNeedleMap file), none) := by
  rw [LoadNeedleMap, walkIndexFile_eq]

theorem Put_ok_spec (nm : NeedleMap) (k o s : Nat) :
    (nm.Put k o s .ok).1 =
      { indexFile := nm.indexFile ++ encodeRecord ⟨k, o, s⟩
        m := (cmSet nm.m k o s).2
        DeletionCounter :=
          if (cmSet nm.m k o s).1 > 0 then (nm.DeletionCounter + 1) % w64
          else nm.DeletionCounter
        FileCounter := (nm.FileCounter + 1) % w64
        DeletionByteCounter :=
          if (cmSet nm.m k o s).1 > 0 then
            (nm.DeletionByteCounter + (cmSet nm.m k o s).1) % w64
          else nm.DeletionByteCounter
        FileByteCounter := (nm.FileByteCounter + s) % w64
        MaximumFileKey := nm.MaximumFileKey } := by
  by_cases h : (cmSet nm.m k o s).1 > 0 <;> simp [NeedleMap.Put, h]

theorem Delete_ok_spec (nm : NeedleMap) (k : Nat) :
    (nm.Delete k none .ok none).1 =
      { indexFile := nm.indexFile ++ encodeRecord ⟨k, 0, 0⟩
        m := (cmDelete nm.m k).2
        DeletionCounter := (nm.DeletionCounter + 1) % w64
        FileCounter := nm.FileCounter
        DeletionByteCounter := (nm.DeletionByteCounter + (cmDelete nm.m k).1) % w64
        FileByteCounter := nm.FileByteCounter
        MaximumFileKey := nm.MaximumFileKey } := by
  simp [NeedleMap.Delete]

theorem if_gt_max (a b : Nat) : (if b > a then b else a) = max a b := by
  split <;> omega

theorem loadStep_put (nm : NeedleMap) (r : IdxRec) (h : 0 < r.offset) :
    loadStep nm r =
      { indexFile := nm.indexFile
        m := (cmSet nm.m r.key r.offset r.size).2
        DeletionCounter :=
          if (cmSet nm.m r.key r.offset r.size).1 > 0 then (nm.DeletionCounter + 1) % w64
          else nm.DeletionCounter
        FileCounter := (nm.FileCounter + 1) % w64
        DeletionByteCounter :=
          if (cmSet nm.m r.key r.offset r.size).1 > 0 then
            (nm.DeletionByteCounter + (cmSet nm.m r.key r.offset r.size).1) % w64
          else nm.DeletionByteCounter
        FileByteCounter := (nm.FileByteCounter + r.size) % w64
        MaximumFileKey := max nm.MaximumFileKey r.key } := by
  by_cases hk : r.key > nm.MaximumFileKey <;>
    by_cases hd : (cmSet nm.m r.key r.offset r.size).1 > 0 <;>
      simp [loadStep, h, hk, hd] <;> omega

theorem loadStep_del (nm : NeedleMap) (r : IdxRec) (h : r.offset = 0) :
    loadStep nm r =
      { indexFile := nm.indexFile
        m := (cmDelete nm.m r.key).2
        DeletionCounter := (nm.DeletionCounter + 1) % w64
        FileCounter := (nm.FileCounter + 1) % w64
        DeletionByteCounter := (nm.DeletionByteCounter + (cmDelete nm.m r.key).1) % w64
        FileByteCounter := (nm.FileByteCounter + r.size) % w64
        MaximumFileKey := max nm.MaximumFileKey r.key } := by
  by_cases hk : r.key > nm.MaximumFileKey <;> simp [loadStep, h, hk] <;> omega

theorem runOpsFrom_indexFile : ∀ (ops : List Op) (nm : NeedleMap),
    (runOpsFrom nm ops).indexFile = nm.indexFile ++ encodeRecords (ops.map recordOf) := by
  intro ops
  induction ops with
  | nil => intro nm; simp [runOpsFrom, encodeRecords]
  | cons op ops ih =>
    intro nm
    match op with
    | .put k o s =>
      rw [runOpsFrom, List.foldl_cons, show applyOp nm (.put k o s) = (nm.Put k o s .ok).1
          from rfl, ← runOpsFrom, ih, Put_ok_spec]
      simp [encodeRecords, recordOf]
    | .del k =>
      rw [runOpsFrom, List.foldl_cons, show applyOp nm (.del k) = (nm.Delete k none .ok none).1
          from rfl, ← runOpsFrom, ih, Delete_ok_spec]
      simp [encodeRecords, recordOf]

theorem mod_shuffle (a b c : Nat) :
    ((a + b) % w64 + c) % w64 = ((a + c) % w64 + b) % w64 := by
  rw [Nat.mod_add_mod, Nat.mod_add_mod]
  have h : a + b + c = a + c + b := by omega
  rw [h]

/-- Replaying the records an operation sequence writes, next to running
the sequence live: the map and three of the counters stay equal, the
replayed file counter runs ahead by the number of tombstones processed,
and the replayed maximum key tracks the maximum of all written keys. -/
theorem w64_pos : 0 < w64 := by norm_num [w64]

theorem replay_rel : ∀ (ops : List Op) (live rep : NeedleMap) (d : Nat),
    (∀ op ∈ ops, putPositive op = true) →
    live.FileByteCounter < w64 →
    rep.m = live.m →
    rep.FileByteCounter = live.FileByteCounter →
    rep.DeletionCounter = live.DeletionCounter →
    rep.DeletionByteCounter = live.DeletionByteCounter →
    rep.FileCounter = (live.FileCounter + d) % w64 →
    ((ops.map recordOf).foldl loadStep rep).m = (runOpsFrom live ops).m ∧
    ((ops.map recordOf).foldl loadStep rep).FileByteCounter
      = (runOpsFrom live ops).FileByteCounter ∧
    ((ops.map recordOf).foldl loadStep rep).DeletionCounter
      = (runOpsFrom live ops).DeletionCounter ∧
    ((ops.map recordOf).foldl loadStep rep).DeletionByteCounter
      = (runOpsFrom live ops).DeletionByteCounter ∧
    ((ops.map recordOf).foldl loadStep rep).FileCounter
      = ((runOpsFrom live ops).FileCounter + (d + numDels ops)) % w64 ∧
    ((ops.map recordOf).foldl loadStep rep).MaximumFileKey
      = maxKeyFrom rep.MaximumFileKey ops ∧
    (runOpsFrom live ops).MaximumFileKey = live.MaximumFileKey := by
  intro ops
  induction ops with
  | nil =>
    intro live rep d _ _ hm hfbc hdc hdbc hfc
    refine ⟨hm, hfbc, hdc, hdbc, ?_, rfl, rfl⟩
    simpa [numDels, runOpsFrom] using hfc
  | cons op ops ih =>
    intro live rep d hpos hfb hm hfbc hdc hdbc hfc
    have hpos' : ∀ x ∈ ops, putPositive x = true :=
      fun x hx => hpos x (by simp [hx])
    match op with
    | .put k o s =>
      have ho : 0 < o := by
        have := hpos (.put k o s) (by simp)
        simpa [putPositive] using this
      have hstep : loadStep rep (recordOf (.put k o s))
          = loadStep rep ⟨k, o, s⟩ := rfl
      rw [List.map_cons, List.foldl_cons, hstep, loadStep_put rep ⟨k, o, s⟩ ho,
        show runOpsFrom live (.put k o s :: ops) = runOpsFrom (applyOp live (.put k o s)) ops
          from rfl,
        show applyOp live (.put k o s) = (live.Put k o s .ok).1 from rfl,
        Put_ok_spec live k o s]
      rw [show maxKeyFrom rep.MaximumFileKey (.put k o s :: ops)
          = maxKeyFrom (max rep.MaximumFileKey k) ops from rfl]
      have happ := ih
        { indexFile := live.indexFile ++ encodeRecord ⟨k, o, s⟩
          m := (cmSet live.m k o s).2
          DeletionCounter :=
            if (cmSet live.m k o s).1 > 0 then (live.DeletionCounter + 1) % w64
            else live.DeletionCounter
          FileCounter := (live.FileCounter + 1) % w64
          DeletionByteCounter :=
            if (cmSet live.m k o s).1 > 0 then
              (live.DeletionByteCounter + (cmSet live.m k o s).1) % w64
            else live.DeletionByteCounter
          FileByteCounter := (live.FileByteCounter + s) % w64
          MaximumFileKey := live.MaximumFileKey }
        { indexFile := rep.indexFile
          m := (cmSet rep.m k o s).2
          DeletionCounter :=
            if (cmSet rep.m k o s).1 > 0 then (rep.DeletionCounter + 1) % w64
            else rep.DeletionCounter
          FileCounter := (rep.FileCounter + 1) % w64
          DeletionByteCounter :=
            if (cmSet rep.m k o s).1 > 0 then
              (rep.DeletionByteCounter + (cmSet rep.m k o s).1) % w64
            else rep.DeletionByteCounter
          FileByteCounter := (rep.FileByteCounter + s) % w64
          MaximumFileKey := max rep.MaximumFileKey k }
        d hpos' (Nat.mod_lt _ w64_pos) (by simp [hm]) (by simp [hfbc]) (by simp [hm, hdc])
        (by simp [hm, hdc, hdbc]) (by rw [hfc]; exact mod_shuffle live.FileCounter d 1)
      rw [show numDels (Op.put k o s :: ops) = numDels ops from rfl]
      exact happ
    | .del k =>
      have hstep : loadStep rep (recordOf (.del k)) = loadStep rep ⟨k, 0, 0⟩ := rfl
      rw [List.map_cons, List.foldl_cons, hstep, loadStep_del rep ⟨k, 0, 0⟩ rfl,
        show runOpsFrom live (.del k :: ops) = runOpsFrom (applyOp live (.del k)) ops
          from rfl,
        show applyOp live (.del k) = (live.Delete k none .ok none).1 from rfl,
        Delete_ok_spec live k]
      rw [show maxKeyFrom rep.MaximumFileKey (.del k :: ops)
          = maxKeyFrom (max rep.MaximumFileKey k) ops from rfl]
      have happ := ih
        { indexFile := live.indexFile ++ encodeRecord ⟨k, 0, 0⟩
          m := (cmDelete live.m k).2
          DeletionCounter := (live.DeletionCounter + 1) % w64
          FileCounter := live.FileCounter
          DeletionByteCounter := (live.DeletionByteCounter + (cmDelete live.m k).1) % w64
          FileByteCounter := live.FileByteCounter
          MaximumFileKey := live.MaximumFileKey }
        { indexFile := rep.indexFile
          m := (cmDelete rep.m k).2
          DeletionCounter := (rep.DeletionCounter + 1) % w64
          FileCounter := (rep.FileCounter + 1) % w64
          DeletionByteCounter := (rep.DeletionByteCounter + (cmDelete rep.m k).1) % w64
          FileByteCounter := (rep.FileByteCounter + 0) % w64
          MaximumFileKey := max rep.MaximumFileKey k }
        (d + 1) hpos' hfb (by simp [hm])
        (by rw [hfbc]; simpa using Nat.mod_eq_of_lt hfb) (by simp [hdc])
        (by simp [hm, hdbc])
        (by
          rw [hfc, Nat.mod_add_mod,
            show live.FileCounter + d + 1 = live.FileCounter + (d + 1) from by omega])
      rw [show numDels (Op.del k :: ops) = numDels ops + 1 from rfl]
      have harr : d + 1 + numDels ops = d + (numDels ops + 1) := by omega
      rw [harr] at happ
      exact happ

theorem alookup_aset_self (m : List (Nat × List Nat)) (k : Nat) (v : List Nat) :
    alookup (aset m k v) k = some v := by
  induction m with
  | nil => simp [aset, alookup]
  | cons e rest ih =>
    obtain ⟨k0, v0⟩ := e
    by_cases h : k0 = k <;> simp [aset, alookup, h, ih]

theorem alookup_aset_ne (m : List (Nat × List Nat)) (k k' : Nat) (v : List Nat)
    (h : k' ≠ k) : alookup (aset m k v) k' = alookup m k' := by
  induction m with
  | nil =>
    simp only [aset, alookup]
    rw [if_neg (fun hh => h hh.symm)]
  | cons e rest ih =>
    obtain ⟨k0, v0⟩ := e
    by_cases h0 : k0 = k
    · subst h0
      simp only [aset, if_pos rfl, alookup]
      rw [if_neg (fun hh => h hh.symm), if_neg (fun hh => h hh.symm)]
    · simp only [aset, if_neg h0, alookup, ih]

theorem nodup_append_singleton {l : List Nat} {a : Nat} (h : l.Nodup) (ha : a ∉ l) :
    (l ++ [a]).Nodup := by
  simp [List.nodup_append, h, ha]

theorem aset_aset (m : List (Nat × List Nat)) (k : Nat) (v1 v2 : List Nat) :
    aset (aset m k v1) k v2 = aset m k v2 := by
  induction m with
  | nil => simp [aset]
  | cons e rest ih =>
    obtain ⟨k0, v0⟩ := e
    by_cases h : k0 = k
    · simp [aset, h]
    · simp [aset, h, ih]

theorem isWritable_update (vl : VolumeLayout) (m : List (Nat × List Nat)) (v : VolumeInfo) :
    ({ vl with vid2location := m } : VolumeLayout).isWritable v = vl.isWritable v := rfl

/-- Closed form of `RegisterVolume`: the volume's location list becomes
`Add`'s result over the current list (empty if the id was unknown), and
the id is appended to `writables` exactly when the `Add` changed the list,
the new length equals the reported class's copy count, and the volume
passes `isWritable`. -/
theorem RegisterVolume_spec (vl : VolumeLayout) (v : VolumeInfo) (dn : Nat) :
    vl.RegisterVolume v dn =
      { vl with
        vid2location :=
          aset vl.vid2location v.Id (locAdd ((vl.Lookup v.Id).getD []) dn).2
        writables :=
          if (locAdd ((vl.Lookup v.Id).getD []) dn).1 = true ∧
             (locAdd ((vl.Lookup v.Id).getD []) dn).2.length = v.RepType.GetCopyCount ∧
             vl.isWritable v = true
          then vl.writables ++ [v.Id] else vl.writables } := by
  rcases halo : alookup vl.vid2location v.Id with _ | l0
  · by_cases h1 : ([dn] : List Nat).length = v.RepType.GetCopyCount <;>
      by_cases h2 : vl.isWritable v = true <;>
        simp [VolumeLayout.RegisterVolume, VolumeLayout.Lookup, halo, alookup_aset_self,
          aset_aset, locAdd, isWritable_update, h1, h2] <;>
        (split <;> simp_all)
  · by_cases hch : dn ∈ l0 <;>
      by_cases h1 : (l0 ++ [dn]).length = v.RepType.GetCopyCount <;>
        by_cases h2 : vl.isWritable v = true <;>
          simp [VolumeLayout.RegisterVolume, VolumeLayout.Lookup, halo, locAdd,
            isWritable_update, hch, h1, h2] <;>
          (split <;> simp_all)

theorem layoutInv_register (vl : VolumeLayout) (v : VolumeInfo) (dn : Nat)
    (hinv : layoutInv vl) (hcls : v.RepType.GetCopyCount = vl.repType.GetCopyCount) :
    layoutInv (vl.RegisterVolume v dn) := by
  obtain ⟨hnd, hmem⟩ := hinv
  rw [RegisterVolume_spec]
  set l := (vl.Lookup v.Id).getD [] with hl
  by_cases hcond : (locAdd l dn).1 = true ∧
      (locAdd l dn).2.length = v.RepType.GetCopyCount ∧ vl.isWritable v = true
  · -- the id is appended to writables
    obtain ⟨hch, hlen, hwr⟩ := hcond
    have hgrow : (locAdd l dn).2.length = l.length + 1 := by
      by_cases hdn : dn ∈ l
      · simp [locAdd, hdn] at hch
      · simp [locAdd, hdn]
    have hvid_not_w : v.Id ∉ vl.writables := by
      intro hin
      have h2 := (hmem v.Id hin).2
      have hRl : vl.repType.GetCopyCount ≤ l.length := by
        rw [hl]
        exact h2
      omega
    rw [if_pos (by exact ⟨hch, hlen, hwr⟩)]
    constructor
    · exact nodup_append_singleton hnd hvid_not_w
    · intro u hu
      simp only [List.mem_append, List.mem_singleton] at hu
      rcases hu with hu | hu
      · have hne : u ≠ v.Id := fun he => hvid_not_w (he ▸ hu)
        show alookup (aset vl.vid2location v.Id (locAdd l dn).2) u ≠ none ∧ _
        rw [alookup_aset_ne _ _ _ _ hne]
        exact hmem u hu
      · subst hu
        show alookup (aset vl.vid2location v.Id (locAdd l dn).2) v.Id ≠ none ∧ _
        rw [alookup_aset_self]
        exact ⟨by simp, by simp; omega⟩
  · rw [if_neg hcond]
    refine ⟨hnd, ?_⟩
    intro u hu
    by_cases hne : u = v.Id
    · subst hne
      show alookup (aset vl.vid2location v.Id (locAdd l dn).2) v.Id ≠ none ∧ _
      rw [alookup_aset_self]
      have h2 := (hmem v.Id hu).2
      have hRl : vl.repType.GetCopyCount ≤ l.length := by
        rw [hl]
        exact h2
      have hge : l.length ≤ (locAdd l dn).2.length := by
        by_cases hdn : dn ∈ l <;> simp [locAdd, hdn]
      exact ⟨by simp, by simp; omega⟩
    · show alookup (aset vl.vid2location v.Id (locAdd l dn).2) u ≠ none ∧ _
      rw [alookup_aset_ne _ _ _ _ hne]
      exact hmem u hu

theorem layoutInv_erase (vl : VolumeLayout) (vid : Nat) (hinv : layoutInv vl) :
    layoutInv { vl with writables := vl.writables.erase vid } := by
  obtain ⟨hnd, hmem⟩ := hinv
  refine ⟨hnd.erase vid, ?_⟩
  intro u hu
  have hu' : u ∈ vl.writables := List.mem_of_mem_erase hu
  exact hmem u hu'

theorem layoutInv_capFull (vl : VolumeLayout) (vid : Nat) (hinv : layoutInv vl) :
    layoutInv (vl.SetVolumeCapacityFull vid).1 := by
  rw [VolumeLayout.SetVolumeCapacityFull, VolumeLayout.removeFromWritable]
  by_cases h : vid ∈ vl.writables
  · rw [if_pos h]
    exact layoutInv_erase vl vid hinv
  · rw [if_neg h]
    exact hinv

theorem layoutInv_avail (vl : VolumeLayout) (dn vid : Nat) (hinv : layoutInv vl) :
    layoutInv (vl.SetVolumeAvailable dn vid).1 := by
  obtain ⟨hnd, hmem⟩ := hinv
  rcases halo : alookup vl.vid2location vid with _ | l
  · simpa [VolumeLayout.SetVolumeAvailable, halo] using And.intro hnd hmem
  · simp only [VolumeLayout.SetVolumeAvailable, halo]
    have hget : ∀ u, u ≠ vid →
        alookup (aset vl.vid2location vid (locAdd l dn).2) u = alookup vl.vid2location u :=
      fun u hu => alookup_aset_ne _ _ _ _ hu
    have hRl : vid ∈ vl.writables → vl.repType.GetCopyCount ≤ l.length := by
      intro hin
      have h2 := (hmem vid hin).2
      rw [halo] at h2
      simpa using h2
    have hge : l.length ≤ (locAdd l dn).2.length := by
      by_cases hdn : dn ∈ l <;> simp [locAdd, hdn]
    by_cases hch : (locAdd l dn).1 = true
    · rw [if_pos hch]
      by_cases hcnt : vl.repType.GetCopyCount ≤ (locAdd l dn).2.length
      · rw [if_pos hcnt, VolumeLayout.setVolumeWritable]
        by_cases hin : vid ∈ vl.writables
        · rw [if_pos (by simpa using hin)]
          refine ⟨hnd, ?_⟩
          intro u hu
          replace hu : u ∈ vl.writables := hu
          by_cases hne : u = vid
          · subst hne
            show alookup (aset vl.vid2location u (locAdd l dn).2) u ≠ none ∧ _
            rw [alookup_aset_self]
            exact ⟨by simp, by simpa using hcnt⟩
          · show alookup (aset vl.vid2location vid (locAdd l dn).2) u ≠ none ∧ _
            rw [hget u hne]
            exact hmem u hu
        · rw [if_neg (by simpa using hin)]
          refine ⟨nodup_append_singleton hnd hin, ?_⟩
          intro u hu
          simp only [List.mem_append, List.mem_singleton] at hu
          rcases hu with hu | hu
          · have hne : u ≠ vid := fun he => hin (he ▸ hu)
            show alookup (aset vl.vid2location vid (locAdd l dn).2) u ≠ none ∧ _
            rw [hget u hne]
            exact hmem u hu
          · subst hu
            show alookup (aset vl.vid2location u (locAdd l dn).2) u ≠ none ∧ _
            rw [alookup_aset_self]
            exact ⟨by simp, by simpa using hcnt⟩
      · rw [if_neg hcnt]
        refine ⟨hnd, ?_⟩
        intro u hu
        replace hu : u ∈ vl.writables := hu
        by_cases hne : u = vid
        · subst hne
          show alookup (aset vl.vid2location u (locAdd l dn).2) u ≠ none ∧ _
          rw [alookup_aset_self]
          have := hRl hu
          exact ⟨by simp, by simp; omega⟩
        · show alookup (aset vl.vid2location vid (locAdd l dn).2) u ≠ none ∧ _
          rw [hget u hne]
          exact hmem u hu
    · rw [if_neg hch]
      refine ⟨hnd, ?_⟩
      intro u hu
      replace hu : u ∈ vl.writables := hu
      by_cases hne : u = vid
      · subst hne
        show alookup (aset vl.vid2location u (locAdd l dn).2) u ≠ none ∧ _
        rw [alookup_aset_self]
        have := hRl hu
        exact ⟨by simp, by simp; omega⟩
      · show alookup (aset vl.vid2location vid (locAdd l dn).2) u ≠ none ∧ _
        rw [hget u hne]
        exact hmem u hu

theorem layoutInv_unavail (vl : VolumeLayout) (dn vid : Nat) (hinv : layoutInv vl) :
    layoutInv (vl.SetVolumeUnavailable dn vid).1 := by
  obtain ⟨hnd, hmem⟩ := hinv
  rcases halo : alookup vl.vid2location vid with _ | l
  · simpa [VolumeLayout.SetVolumeUnavailable, halo] using And.intro hnd hmem
  · simp only [VolumeLayout.SetVolumeUnavailable, halo]
    have hget : ∀ u lx, u ≠ vid →
        alookup (aset vl.vid2location vid lx) u = alookup vl.vid2location u :=
      fun u lx hu => alookup_aset_ne _ _ _ _ hu
    by_cases hch : (locRemove l dn).1 = true
    · rw [if_pos hch]
      by_cases hcnt : (locRemove l dn).2.length < vl.repType.GetCopyCount
      · rw [if_pos hcnt, VolumeLayout.removeFromWritable]
        by_cases hin : vid ∈ vl.writables
        · rw [if_pos (by simpa using hin)]
          refine ⟨hnd.erase vid, ?_⟩
          intro u hu
          replace hu : u ∈ vl.writables.erase vid := hu
          have hne : u ≠ vid := ((hnd.mem_erase_iff).mp hu).1
          have hu' : u ∈ vl.writables := ((hnd.mem_erase_iff).mp hu).2
          show alookup (aset vl.vid2location vid (locRemove l dn).2) u ≠ none ∧ _
          rw [hget u _ hne]
          exact hmem u hu'
        · rw [if_neg (by simpa using hin)]
          refine ⟨hnd, ?_⟩
          intro u hu
          replace hu : u ∈ vl.writables := hu
          have hne : u ≠ vid := fun he => hin (he ▸ hu)
          show alookup (aset vl.vid2location vid (locRemove l dn).2) u ≠ none ∧ _
          rw [hget u _ hne]
          exact hmem u hu
      · rw [if_neg hcnt]
        refine ⟨hnd, ?_⟩
        intro u hu
        replace hu : u ∈ vl.writables := hu
        by_cases hne : u = vid
        · subst hne
          show alookup (aset vl.vid2location u (locRemove l dn).2) u ≠ none ∧ _
          rw [alookup_aset_self]
          exact ⟨by simp, by simp; omega⟩
        · show alookup (aset vl.vid2location vid (locRemove l dn).2) u ≠ none ∧ _
          rw [hget u _ hne]
          exact hmem u hu
    · rw [if_neg hch]
      have hsame : (locRemove l dn).2 = l := by
        by_cases hdn : dn ∈ l <;> simp [locRemove, hdn] at hch ⊢
      refine ⟨hnd, ?_⟩
      intro u hu
      replace hu : u ∈ vl.writables := hu
      by_cases hne : u = vid
      · subst hne
        show alookup (aset vl.vid2location u (locRemove l dn).2) u ≠ none ∧ _
        rw [alookup_aset_self, hsame]
        have h2 := (hmem u hu).2
        rw [halo] at h2
        exact ⟨by simp, by simpa using h2⟩
      · show alookup (aset vl.vid2location vid (locRemove l dn).2) u ≠ none ∧ _
        rw [hget u _ hne]
        exact hmem u hu

theorem lstep_repType (vl : VolumeLayout) (op : LOp) :
    (lstep vl op).repType = vl.repType := by
  match op with
  | .reg v dn =>
    rw [lstep, RegisterVolume_spec]
  | .avail dn vid =>
    rw [lstep, VolumeLayout.SetVolumeAvailable]
    rcases halo : alookup vl.vid2location vid with _ | l <;>
      simp [VolumeLayout.setVolumeWritable] <;> split_ifs <;> rfl
  | .unavail dn vid =>
    rw [lstep, VolumeLayout.SetVolumeUnavailable]
    rcases halo : alookup vl.vid2location vid with _ | l <;>
      simp [VolumeLayout.removeFromWritable] <;> split_ifs <;> rfl
  | .capFull vid =>
    rw [lstep, VolumeLayout.SetVolumeCapacityFull, VolumeLayout.removeFromWritable]
    split_ifs <;> rfl

theorem layoutInv_lstep (vl : VolumeLayout) (op : LOp) (hinv : layoutInv vl)
    (hcls : ∀ v dn, op = .reg v dn → v.RepType.GetCopyCount = vl.repType.GetCopyCount) :
    layoutInv (lstep vl op) := by
  match op with
  | .reg v dn => exact layoutInv_register vl v dn hinv (hcls v dn rfl)
  | .avail dn vid => exact layoutInv_avail vl dn vid hinv
  | .unavail dn vid => exact layoutInv_unavail vl dn vid hinv
  | .capFull vid => exact layoutInv_capFull vl vid hinv

theorem layoutInv_runLayout : ∀ (ops : List LOp) (vl : VolumeLayout),
    layoutInv vl → regsMatch vl.repType ops = true →
    layoutInv (runLayout vl ops) := by
  intro ops
  induction ops with
  | nil => intro vl hinv _; exact hinv
  | cons op ops ih =>
    intro vl hinv hcls
    have hstep : layoutInv (lstep vl op) := by
      apply layoutInv_lstep vl op hinv
      intro v dn he
      subst he
      simp only [regsMatch, Bool.and_eq_true, decide_eq_true_eq] at hcls
      exact hcls.1
    have hcls' : regsMatch (lstep vl op).repType ops = true := by
      rw [lstep_repType]
      match op with
      | .reg v dn =>
        simp only [regsMatch, Bool.and_eq_true] at hcls
        exact hcls.2
      | .avail dn vid => exact hcls
      | .unavail dn vid => exact hcls
      | .capFull vid => exact hcls
    exact ih (lstep vl op) hstep hcls'

theorem runLayout_repType : ∀ (ops : List LOp) (vl : VolumeLayout),
    (runLayout vl ops).repType = vl.repType := by
  intro ops
  induction ops with
  | nil => intro vl; rfl
  | cons op ops ih =>
    intro vl
    rw [runLayout, List.foldl_cons, ← runLayout, ih, lstep_repType]

theorem parseAll_records_len (s : List Nat) : (parseAll s).1.length = s.length / 16 := by
  have h := parseAux_len s []
  have h2 := parseAux_snd_lt s [] (by simp)
  rw [parseAll]
  simp only [List.length_nil, Nat.zero_add] at h
  omega

theorem parseAll_aligned_prefix (s : List Nat) :
    (parseAll s).1 = (parseAll (s.take (16 * (s.length / 16)))).1 := by
  have hmul : 16 * (s.length / 16) ≤ s.length := Nat.mul_div_le s.length 16
  have htl : (s.take (16 * (s.length / 16))).length = 16 * (s.length / 16) := by
    rw [List.length_take]
    omega
  have hlen := parseAux_len (s.take (16 * (s.length / 16))) []
  have hlt := parseAux_snd_lt (s.take (16 * (s.length / 16))) [] (by simp)
  simp only [List.length_nil, Nat.zero_add] at hlen
  rw [htl] at hlen
  have hleft : (parseAux [] (s.take (16 * (s.length / 16)))).2 = [] := by
    apply List.eq_nil_of_length_eq_zero
    omega
  have hdl : (s.drop (16 * (s.length / 16))).length < 16 := by
    rw [List.length_drop]
    have hmod := Nat.div_add_mod s.length 16
    have hm2 : s.length % 16 < 16 := Nat.mod_lt _ (by omega)
    omega
  conv_lhs =>
    rw [parseAll, show s = s.take (16 * (s.length / 16)) ++ s.drop (16 * (s.length / 16)) from
      (List.take_append_drop _ s).symm]
  rw [parseAux_append, hleft,
    parseAux_short (s.drop (16 * (s.length / 16))) [] (by simpa using hdl)]
  simp [parseAll]

/-- C1: the claim says two successive `NextFileKey` calls with positive
counts return first the pre-call high-water mark `k` and then `k + n1`,
making the ranges `[k, k+n1)` and `[k+n1, k+n1+n2)` disjoint.  The code
violates this: `NextFileKey` (needle_map.go:176) takes its receiver by
value, so `nm.MaximumFileKey += uint64(count)` mutates a discarded copy
and the caller's index never advances.  Evaluated at the failing input — a
fresh index, `n1 = n2 = 1` — the first call returns `0` and leaves the
index unchanged, so the second call returns `0` again instead of
`k + n1 = 1`, and the two allocated ranges coincide.  (The `count <= 0`
half of the claim — return `0`, state unchanged — does hold, also shown
here at `count = -3`.) -/
theorem nextFileKey_never_advances :
    ((NewNeedleMap []).NextFileKey 1).1 = 0 ∧
    ((NewNeedleMap []).NextFileKey 1).2 = NewNeedleMap [] ∧
    (((NewNeedleMap []).NextFileKey 1).2.NextFileKey 1).1 = 0 ∧
    ¬ (((NewNeedleMap []).NextFileKey 1).2.NextFileKey 1).1 = 0 + 1 ∧
    ((NewNeedleMap []).NextFileKey (-3)).1 = 0 ∧
    ((NewNeedleMap []).NextFileKey (-3)).2 = NewNeedleMap [] := by
  decide

/-- C7: replaying an index log whose byte length is not a multiple of 16
(`walkIndexFile`, any schedule of OS read sizes, so records may straddle
chunk boundaries) processes exactly the records of the complete leading
16-byte blocks — one each, in log order (`(parseAll s).1`, of which there
are `s.length / 16`) — and returns success (`.ok`), dropping the partial
trailing record instead of failing. -/
theorem walkIndexFile_truncated_tail (s sched : List Nat) (h : s.length % 16 ≠ 0) :
    walkIndexFile s sched = .ok (parseAll s).1 ∧
    (parseAll s).1 = (parseAll (s.take (16 * (s.length / 16)))).1 ∧
    (parseAll s).1.length = s.length / 16 :=
  ⟨walkIndexFile_eq s sched, parseAll_aligned_prefix s, parseAll_records_len s⟩

/-- C7 witness: a 17-byte log (one complete record of zeros plus one
stray byte) replayed with reads split as 3 then 4 then the rest. -/
theorem walkIndexFile_truncated_tail_witness :
    walkIndexFile (List.replicate 17 0) [3, 4] = .ok [⟨0, 0, 0⟩] := by
  have h := walkIndexFile_truncated_tail (List.replicate 17 0) [3, 4] (by decide)
  rw [h.1]
  simp only [Except.ok.injEq]
  decide

/-- C8: when the tombstone append inside `Delete` fails, the index file is
truncated back to the position captured before the write (restoring the
pre-call content); the returned error carries the original write error in
every case, and when the truncation itself also fails the file keeps the
torn bytes and the error additionally carries the truncation failure next
to — not instead of — the write error. -/
theorem delete_failed_append_truncates (nm : NeedleMap) (key n : Nat) (msg tmsg : String)
    (truncRes : Option String) :
    (nm.Delete key none (.fail n msg) truncRes).2 = some (.writeFailed msg truncRes) ∧
    (nm.Delete key none (.fail n msg) none).1.indexFile = nm.indexFile ∧
    (nm.Delete key none (.fail n msg) (some tmsg)).1.indexFile
      = nm.indexFile ++ (encodeRecord ⟨key, 0, 0⟩).take n := by
  refine ⟨?_, ?_, rfl⟩
  · cases truncRes <;> rfl
  · show (nm.indexFile ++ (encodeRecord ⟨key, 0, 0⟩).take n).take nm.indexFile.length
      = nm.indexFile
    exact List.take_left _ _

/-- C9 (amended): every `Put(key, offset, size)` increments `fileCounter`
by one and `fileByteCounter` by `size` (in uint64 arithmetic)
unconditionally, and leaves the map holding `(key, offset, size)`; the
deletion counters are incremented — by one and by the previous size — iff
the previous size returned by the map's `Set` is **positive**.  (The
original claim's "whenever a previous record existed, including a
previous size of 0" is exactly what the `oldSize > 0` guard at
needle_map.go:126 does not do; see the counterexample.) -/
theorem put_accounting (nm : NeedleMap) (key offset size : Nat) :
    (nm.Put key offset size .ok).1.FileCounter = (nm.FileCounter + 1) % w64 ∧
    (nm.Put key offset size .ok).1.FileByteCounter = (nm.FileByteCounter + size) % w64 ∧
    (nm.Put key offset size .ok).1.Get key = some (offset, size) ∧
    ((nm.Put key offset size .ok).1.DeletionCounter
      = if 0 < (cmSet nm.m key offset size).1 then (nm.DeletionCounter + 1) % w64
        else nm.DeletionCounter) ∧
    ((nm.Put key offset size .ok).1.DeletionByteCounter
      = if 0 < (cmSet nm.m key offset size).1 then
          (nm.DeletionByteCounter + (cmSet nm.m key offset size).1) % w64
        else nm.DeletionByteCounter) := by
  rw [Put_ok_spec]
  exact ⟨rfl, rfl, cmGet_cmSet nm.m key offset size, rfl, rfl⟩

/-- C9 counterexample: a previous record for key 1 exists in the map (with
size 0), yet `Put(1, 6, 10)` does not increment `deletionCounter` — the
code tests `oldSize > 0`, not record existence — refuting the claim's
"including the case where the previous record's size was 0". -/
theorem put_accounting_cex :
    nmSizeZero.Get 1 = some (5, 0) ∧
    (nmSizeZero.Put 1 6 10 .ok).1.DeletionCounter
      ≠ (nmSizeZero.DeletionCounter + 1) % w64 := by
  decide

/-- C10: `Put` and `Delete` are not atomic on append failure.  A `Put`
whose write fails leaves the map and all four counters exactly as a
successful `Put` would — the new record is already in the map, with no
rollback.  A `Delete` whose write fails has already removed the key and
added its prior size to `deletionByteCounter`, while `deletionCounter`
alone is left unincremented (compare the successful `Delete`, which bumps
it). -/
theorem mutations_precede_append (nm : NeedleMap) (k o s n : Nat) (msg : String)
    (k2 n2 : Nat) (msg2 : String) (tres : Option String) :
    ((nm.Put k o s (.fail n msg)).1.m = (nm.Put k o s .ok).1.m ∧
     (nm.Put k o s (.fail n msg)).1.FileCounter = (nm.Put k o s .ok).1.FileCounter ∧
     (nm.Put k o s (.fail n msg)).1.FileByteCounter = (nm.Put k o s .ok).1.FileByteCounter ∧
     (nm.Put k o s (.fail n msg)).1.DeletionCounter = (nm.Put k o s .ok).1.DeletionCounter ∧
     (nm.Put k o s (.fail n msg)).1.DeletionByteCounter
       = (nm.Put k o s .ok).1.DeletionByteCounter ∧
     (nm.Put k o s (.fail n msg)).1.Get k = some (o, s)) ∧
    ((nm.Delete k2 none (.fail n2 msg2) tres).1.m = (cmDelete nm.m k2).2 ∧
     (nm.Delete k2 none (.fail n2 msg2) tres).1.DeletionByteCounter
       = (nm.DeletionByteCounter + (cmDelete nm.m k2).1) % w64 ∧
     (nm.Delete k2 none (.fail n2 msg2) tres).1.DeletionCounter = nm.DeletionCounter ∧
     (nm.Delete k2 none .ok none).1.DeletionCounter = (nm.DeletionCounter + 1) % w64) := by
  refine ⟨⟨rfl, rfl, rfl, rfl, rfl, ?_⟩, ?_⟩
  · show cmGet (nm.Put k o s (.fail n msg)).1.m k = some (o, s)
    rw [show (nm.Put k o s (.fail n msg)).1.m = (nm.Put k o s .ok).1.m from rfl, Put_ok_spec]
    exact cmGet_cmSet nm.m k o s
  · cases tres <;> exact ⟨rfl, rfl, rfl, rfl⟩

/-- C2 (amended): for any sequence of `Put`/`Delete` operations from an
empty index in which every `Put` has a positive offset (an offset of 0
would be written as a tombstone) and all arguments fit the Go types,
replaying the written log through `LoadNeedleMap` (under any read
schedule) succeeds and reproduces the live index's key→(offset, size) map
(both pointwise through `Get` and as the identical map value) and its
`fileByteCounter`, `deletionCounter` and `deletionByteCounter`; the two
remaining counters provably differ from the original claim: the reloaded
`fileCounter` exceeds the live one by the number of `Delete` operations
(replay counts tombstone records too), and the reloaded `maximumFileKey`
is the maximum key written, whereas the live index's stays 0 (`Put`
never updates it). -/
theorem needle_roundtrip_reload (ops : List Op) (sched : List Nat)
    (hwf : ∀ op ∈ ops, WFRec (recordOf op))
    (hpos : ∀ op ∈ ops, putPositive op = true) :
    (LoadNeedleMap (runOps ops).indexFile sched).2 = none ∧
    (∀ key, (LoadNeedleMap (runOps ops).indexFile sched).1.Get key = (runOps ops).Get key) ∧
    (LoadNeedleMap (runOps ops).indexFile sched).1.m = (runOps ops).m ∧
    (LoadNeedleMap (runOps ops).indexFile sched).1.FileByteCounter
      = (runOps ops).FileByteCounter ∧
    (LoadNeedleMap (runOps ops).indexFile sched).1.DeletionCounter
      = (runOps ops).DeletionCounter ∧
    (LoadNeedleMap (runOps ops).indexFile sched).1.DeletionByteCounter
      = (runOps ops).DeletionByteCounter ∧
    (LoadNeedleMap (runOps ops).indexFile sched).1.FileCounter
      = ((runOps ops).FileCounter + numDels ops) % w64 ∧
    (LoadNeedleMap (runOps ops).indexFile sched).1.MaximumFileKey = maxKeyFrom 0 ops ∧
    (runOps ops).MaximumFileKey = 0 := by
  have hfile : (runOps ops).indexFile = encodeRecords (ops.map recordOf) := by
    have h := runOpsFrom_indexFile ops (NewNeedleMap [])
    rw [runOps, h]
    rfl
  have hwf' : ∀ r ∈ ops.map recordOf, WFRec r := by
    intro r hr
    obtain ⟨op, hop, hre⟩ := List.mem_map.mp hr
    rw [← hre]
    exact hwf op hop
  have hparse : parseAll (runOps ops).indexFile = (ops.map recordOf, []) := by
    rw [hfile]
    exact parseAll_encodeRecords _ hwf'
  have hload : LoadNeedleMap (runOps ops).indexFile sched
      = ((ops.map recordOf).foldl loadStep (NewNeedleMap (runOps ops).indexFile), none) := by
    rw [LoadNeedleMap_eq, hparse]
  have hrel := replay_rel ops (NewNeedleMap []) (NewNeedleMap (runOps ops).indexFile) 0
    hpos w64_pos rfl rfl rfl rfl (by simp [NewNeedleMap])
  obtain ⟨hm, hfbc, hdc, hdbc, hfc, hmfk, hlmfk⟩ := hrel
  rw [hload]
  refine ⟨rfl, ?_, hm, hfbc, hdc, hdbc, ?_, hmfk, hlmfk⟩
  · intro key
    show cmGet ((ops.map recordOf).foldl loadStep (NewNeedleMap (runOps ops).indexFile)).m key
      = cmGet (runOps ops).m key
    rw [hm]
    rfl
  · rw [hfc, Nat.zero_add]
    rfl

/-- C2 witness: the two-operation sequence `Put(100, 5, 200)` then
`Delete(100)`, reloaded with full-buffer reads: the deletion counters of
the live and the reloaded index agree. -/
theorem needle_roundtrip_reload_witness :
    (LoadNeedleMap (runOps [Op.put 100 5 200, Op.del 100]).indexFile []).1.DeletionCounter
      = (runOps [Op.put 100 5 200, Op.del 100]).DeletionCounter :=
  (needle_roundtrip_reload [Op.put 100 5 200, Op.del 100] [] (by decide)
    (by decide)).2.2.2.2.1

/-- C3 counterexample: for the scenario `Put(100, 5, 200)`,
`Delete(100)`, reload, the claimed counter values are wrong: the reloaded
index has `DeletedCount() = 1` (one tombstone replayed, not 2) and
`FileCount() = 2` (replay counts both log records, not 1), so the claimed
conjunction is false. -/
theorem reload_scenario_cex :
    ¬ ((LoadNeedleMap (runOps [Op.put 100 5 200, Op.del 100]).indexFile []).1.Get 100 = none ∧
       (LoadNeedleMap (runOps [Op.put 100 5 200, Op.del 100]).indexFile []).1.DeletedCount = 2 ∧
       (LoadNeedleMap (runOps [Op.put 100 5 200, Op.del 100]).indexFile []).1.FileCount = 1 ∧
       (LoadNeedleMap (runOps [Op.put 100 5 200, Op.del 100]).indexFile []).1.DeletedSize
         = 200) := by
  decide

/-- C3 (amended): starting empty, `Put(100, 5, 200)` then `Delete(100)`
then reload via `LoadNeedleMap` yields `Get(100)` not-found,
`DeletedCount() = 1`, `FileCount() = 2`, and `DeletedSize() = 200` (the
claimed `DeletedCount() = 2` / `FileCount() = 1` swap the roles of the
two counters: replay counts every record — including the tombstone — in
`FileCounter`, and the single tombstone once in `DeletionCounter`). -/
theorem reload_scenario :
    (LoadNeedleMap (runOps [Op.put 100 5 200, Op.del 100]).indexFile []).1.Get 100 = none ∧
    (LoadNeedleMap (runOps [Op.put 100 5 200, Op.del 100]).indexFile []).1.DeletedCount = 1 ∧
    (LoadNeedleMap (runOps [Op.put 100 5 200, Op.del 100]).indexFile []).1.FileCount = 2 ∧
    (LoadNeedleMap (runOps [Op.put 100 5 200, Op.del 100]).indexFile []).1.DeletedSize = 200 := by
  decide

/-- C4 (amended): in every state reachable from a fresh layout by a
panic-free sequence of `RegisterVolume` / `SetVolumeAvailable` /
`SetVolumeUnavailable` / `SetVolumeCapacityFull` operations whose
registered infos carry the layout's replication class, each member of the
writable set is registered with a location list of at least the class's
required copy count (and the set holds no duplicates).  The size /
version / read-only half of the original claim is **not** an invariant:
`SetVolumeAvailable` re-adds a volume on replica count alone, without the
writability predicate — see the counterexample, where a volume at the
size limit becomes writable through it. -/
theorem layout_writable_requires_replicas (t : ReplicationType) (limit : Nat) (pulse : Int)
    (ops : List LOp)
    (hok : traceOK (NewVolumeLayout t limit pulse) ops = true)
    (hcls : regsMatch t ops = true) :
    (runLayout (NewVolumeLayout t limit pulse) ops).writables.Nodup ∧
    ∀ vid ∈ (runLayout (NewVolumeLayout t limit pulse) ops).writables,
      alookup (runLayout (NewVolumeLayout t limit pulse) ops).vid2location vid ≠ none ∧
      t.GetCopyCount ≤
        ((alookup (runLayout (NewVolumeLayout t limit pulse) ops).vid2location
          vid).getD []).length := by
  have hinv0 : layoutInv (NewVolumeLayout t limit pulse) := by
    refine ⟨List.nodup_nil, ?_⟩
    intro vid h
    simp [NewVolumeLayout] at h
  obtain ⟨h1, h2⟩ := layoutInv_runLayout ops (NewVolumeLayout t limit pulse) hinv0 hcls
  refine ⟨h1, ?_⟩
  intro vid hv
  have h3 := h2 vid hv
  rwa [runLayout_repType] at h3

/-- C4 witness: register volume 1 on node 10, then report it available on
node 11; the resulting writable set satisfies the invariant. -/
theorem layout_writable_requires_replicas_witness :
    (runLayout (NewVolumeLayout ⟨1⟩ 100 0) [LOp.reg vGood 10, LOp.avail 11 1]).writables.Nodup :=
  (layout_writable_requires_replicas ⟨1⟩ 100 0 [LOp.reg vGood 10, LOp.avail 11 1]
    (by decide) (by decide)).1

/-- C4 counterexample: volume 1 reports size 100 with limit 100 (at the
limit, not below).  `RegisterVolume` correctly refuses to make it
writable, but a subsequent `SetVolumeAvailable` from another node appends
it to the writable set purely on replica count — so a volume whose
reported size is at the limit does become writable via
`SetVolumeAvailable`, refuting the claimed invariant. -/
theorem layout_writable_requires_replicas_cex :
    traceOK (NewVolumeLayout ⟨1⟩ 100 0) [LOp.reg vFull 10, LOp.avail 11 1] = true ∧
    regsMatch ⟨1⟩ [LOp.reg vFull 10, LOp.avail 11 1] = true ∧
    ¬ vFull.Size < (NewVolumeLayout ⟨1⟩ 100 0).volumeSizeLimit ∧
    (runLayout (NewVolumeLayout ⟨1⟩ 100 0) [LOp.reg vFull 10, LOp.avail 11 1]).writables
      = [1] := by
  decide

/-- C5 (amended): a `RegisterVolume(v, dn)` call appends `v.Id` to the
writable set exactly when the `Add` is a genuine new membership **and**
the resulting list length **equals** the reported class's required copy
count **and** the volume passes the writability predicate.  The threshold
at volume_layout.go:33 is `==`, not `>=`: a genuine add that leaves the
list strictly longer than the required count does not fire it (see the
counterexample). -/
theorem registerVolume_writable_append (vl : VolumeLayout) (v : VolumeInfo) (dn : Nat) :
    (vl.RegisterVolume v dn).writables =
      if dn ∉ (vl.Lookup v.Id).getD [] ∧
         ((vl.Lookup v.Id).getD []).length + 1 = v.RepType.GetCopyCount ∧
         vl.isWritable v = true
      then vl.writables ++ [v.Id] else vl.writables := by
  rw [RegisterVolume_spec]
  by_cases hdn : dn ∈ (vl.Lookup v.Id).getD [] <;> simp [locAdd, hdn]

/-- C5 counterexample: with required copy count 1, node 10 registers
volume 1 (writable set becomes `[1]`); registering the genuinely new node
11 brings the list to length 2 ≥ 1 and the volume passes the writability
predicate, yet nothing is appended to the writable set — the `>=` reading
of the claim is false, the code fires only on equality. -/
theorem registerVolume_writable_append_cex :
    11 ∉ ((((NewVolumeLayout ⟨1⟩ 100 0).RegisterVolume vOne 10).Lookup 1).getD []) ∧
    vOne.RepType.GetCopyCount ≤
      ((((NewVolumeLayout ⟨1⟩ 100 0).RegisterVolume vOne 10).Lookup 1).getD []).length + 1 ∧
    ((NewVolumeLayout ⟨1⟩ 100 0).RegisterVolume vOne 10).isWritable vOne = true ∧
    (((NewVolumeLayout ⟨1⟩ 100 0).RegisterVolume vOne 10).RegisterVolume vOne 11).writables
      ≠ ((NewVolumeLayout ⟨1⟩ 100 0).RegisterVolume vOne 10).writables ++ [1] := by
  decide

/-- C6: `PickForWrite` fails with the exhaustion error iff the writable
set is empty (a total function — never a panic — and never the
inconsistency error in that case); on a non-empty set, for any random
index into it, the call returns the chosen id, the caller's count
unchanged, and that id's location list when one exists, and fails with
the distinct inconsistency error naming the id when its location list is
absent. -/
theorem pickForWrite_spec (vl : VolumeLayout) (count : Int) (r : Nat) :
    (vl.PickForWrite count r = .error .noWritable ↔ vl.writables = []) ∧
    (r < vl.writables.length →
      (∀ l, alookup vl.vid2location (vl.writables.getD r 0) = some l →
        vl.PickForWrite count r = .ok (vl.writables.getD r 0, count, l)) ∧
      (alookup vl.vid2location (vl.writables.getD r 0) = none →
        vl.PickForWrite count r = .error (.inconsistent (vl.writables.getD r 0)))) := by
  constructor
  · constructor
    · intro h
      by_contra hne
      have hlen : 0 < vl.writables.length := List.length_pos.mpr hne
      rw [VolumeLayout.PickForWrite, if_neg (by omega)] at h
      cases halo : alookup vl.vid2location (vl.writables.getD (r % vl.writables.length) 0) with
      | none => rw [halo] at h; simp at h
      | some l => rw [halo] at h; simp at h
    · intro h
      rw [VolumeLayout.PickForWrite, if_pos (by simp [h])]
  · intro hr
    have hmod : r % vl.writables.length = r := Nat.mod_eq_of_lt hr
    constructor
    · intro l hl
      rw [VolumeLayout.PickForWrite, if_neg (by omega), hmod, hl]
    · intro hl
      rw [VolumeLayout.PickForWrite, if_neg (by omega), hmod, hl]

/-- C6 witness: on `vlPick`, picking with random index 0 and count 7
returns volume 5, the count unchanged, and its location list. -/
theorem pickForWrite_spec_witness :
    vlPick.PickForWrite 7 0 = .ok (5, 7, [1]) :=
  ((pickForWrite_spec vlPick 7 0).2 (by decide)).1 [1] (by decide)

/-- C2 counterexample: for the sequence `Put(100, 0, 7)`, `Delete(50)`
the claim as stated fails on three counts at once: the live map holds
`100 ↦ (0, 7)` but the reloaded map does not (replay reads the offset-0
record as a tombstone), the live `fileCounter` is 1 but the reloaded one
is 2 (replay also counts the tombstone record), and the live
`maximumFileKey` is 0 (`Put` never advances it) while the reloaded one is
100. -/
theorem needle_roundtrip_reload_cex :
    (runOps [Op.put 100 0 7, Op.del 50]).Get 100 = some (0, 7) ∧
    (LoadNeedleMap (runOps [Op.put 100 0 7, Op.del 50]).indexFile []).1.Get 100 = none ∧
    (runOps [Op.put 100 0 7, Op.del 50]).FileCounter = 1 ∧
    (LoadNeedleMap (runOps [Op.put 100 0 7, Op.del 50]).indexFile []).1.FileCounter = 2 ∧
    (runOps [Op.put 100 0 7, Op.del 50]).MaximumFileKey = 0 ∧
    (LoadNeedleMap (runOps [Op.put 100 0 7, Op.del 50]).indexFile []).1.MaximumFileKey
      = 100 := by
  decide
